import Mathlib

/-!
Verification development for the `yahoo_fantasy_api` repository.

We shallowly embed the JSON-to-domain-model extraction layer of
`yahoo_fantasy_api/league.py` and `yahoo_fantasy_api/player.py`:

* Python dictionaries become association lists (`aset`, `alookup`, `adel`
  mirror `d[k] = v`, `d[k]` / `k in d`, and `del d[k]`, preserving
  insertion order the way CPython dicts do);
* heterogeneous JSON values become the inductive type `Val`;
* the remote service (the `yhandler` transport) is an explicit parameter,
  and each operation additionally returns the sequence of remote requests
  it issued so that call counts are observable;
* Python exceptions (KeyError, ValueError, NameError, ...) become `Option`
  / `Except` results.
-/

section PyDict

variable {α : Type} {β : Type} [DecidableEq α]

/-- Lookup in an association list; models Python `d[k]` (as `some v`) and
`k in d` (as `(alookup d k).isSome`).  Keys are unique in any dict built
with `aset`, so first-match lookup agrees with Python semantics. -/
def alookup : List (α × β) → α → Option β
  | [], _ => none
  | (k, v) :: rest, a => if k = a then some v else alookup rest a

/-- Models Python `d[k] = v`: if the key is present its value is replaced in
place (keeping its position in insertion order), otherwise the binding is
appended at the end. -/
def aset (d : List (α × β)) (k : α) (v : β) : List (α × β) :=
  if (alookup d k).isSome then
    d.map (fun p => if p.1 = k then (k, v) else p)
  else
    d ++ [(k, v)]

/-- Models Python `del d[k]` (keys built with `aset` are unique, so removing
every binding for `k` agrees with CPython's removal of the single binding). -/
def adel : List (α × β) → α → List (α × β)
  | [], _ => []
  | (pk, pv) :: rest, k => if pk = k then adel rest k else (pk, pv) :: adel rest k

@[simp] theorem alookup_nil (a : α) : alookup ([] : List (α × β)) a = none := rfl

theorem alookup_cons (k : α) (v : β) (rest : List (α × β)) (a : α) :
    alookup ((k, v) :: rest) a = if k = a then some v else alookup rest a := rfl

theorem alookup_append (d e : List (α × β)) (a : α) :
    alookup (d ++ e) a =
      match alookup d a with
      | some v => some v
      | none => alookup e a := by
  induction d with
  | nil => simp
  | cons p rest ih =>
    obtain ⟨pk, pv⟩ := p
    by_cases hpk : pk = a
    · simp [alookup_cons, hpk]
    · simp [alookup_cons, hpk, ih]

theorem alookup_map_replace_self (d : List (α × β)) (k : α) (v : β)
    (h : (alookup d k).isSome) :
    alookup (d.map (fun p => if p.1 = k then (k, v) else p)) k = some v := by
  induction d with
  | nil => simp at h
  | cons p rest ih =>
    obtain ⟨pk, pv⟩ := p
    by_cases hpk : pk = k
    · subst hpk
      simp [alookup_cons]
    · simp only [alookup_cons, if_neg hpk, Option.isSome] at h
      simp only [List.map_cons, if_neg hpk, alookup_cons, if_neg hpk]
      exact ih h

theorem alookup_map_replace_ne (d : List (α × β)) (k : α) (v : β) (a : α)
    (hne : k ≠ a) :
    alookup (d.map (fun p => if p.1 = k then (k, v) else p)) a = alookup d a := by
  induction d with
  | nil => simp
  | cons p rest ih =>
    obtain ⟨pk, pv⟩ := p
    by_cases hpk : pk = k
    · subst hpk
      simp [alookup_cons, if_neg hne, ih]
    · have hrepl : (if pk = k then (k, v) else (pk, pv)) = (pk, pv) := if_neg hpk
      simp only [List.map_cons, hrepl, alookup_cons]
      by_cases hpa : pk = a
      · simp [hpa]
      · simp [hpa, ih]

theorem alookup_aset_self (d : List (α × β)) (k : α) (v : β) :
    alookup (aset d k v) k = some v := by
  unfold aset
  split
  · exact alookup_map_replace_self d k v (by assumption)
  · rename_i h
    rw [alookup_append]
    cases hd : alookup d k with
    | some w => rw [hd] at h; simp at h
    | none => simp [alookup_cons]

theorem alookup_aset_ne (d : List (α × β)) (k : α) (v : β) (a : α) (hne : k ≠ a) :
    alookup (aset d k v) a = alookup d a := by
  unfold aset
  split
  · exact alookup_map_replace_ne d k v a hne
  · rw [alookup_append]
    cases hd : alookup d a with
    | some w => rfl
    | none => simp [alookup_cons, if_neg hne]

theorem alookup_adel_self (d : List (α × β)) (k : α) :
    alookup (adel d k) k = none := by
  induction d with
  | nil => rfl
  | cons p rest ih =>
    obtain ⟨pk, pv⟩ := p
    by_cases hpk : pk = k
    · subst hpk
      simpa [adel] using ih
    · simp only [adel, if_neg hpk, alookup_cons, if_neg hpk]
      exact ih

theorem alookup_adel_ne (d : List (α × β)) (k a : α) (hne : k ≠ a) :
    alookup (adel d k) a = alookup d a := by
  induction d with
  | nil => rfl
  | cons p rest ih =>
    obtain ⟨pk, pv⟩ := p
    by_cases hpk : pk = k
    · subst hpk
      simp only [adel, if_pos rfl, alookup_cons, if_neg (fun h : pk = a => hne h)]
      exact ih
    · simp only [adel, if_neg hpk, alookup_cons]
      by_cases hpa : pk = a
      · simp [hpa]
      · simp [hpa, ih]

end PyDict

/-! ## JSON values

Wire payloads mix strings, integers, lists and nested objects.  `Val.f`
records a Python float obtained by `float(x)` applied to the string `x`
(no float arithmetic is ever performed on these values in the embedded
code, so the originating literal is an adequate representation). -/

inductive Val where
  | s (x : String)
  | i (n : Int)
  | f (x : String)
  | l (xs : List Val)
  | d (xs : List (String × Val))

/-- A Python dict with string keys holding JSON values. -/
abbrev PyDict := List (String × Val)

/-- Is this value a Python int? -/
def Val.isInt : Val → Bool
  | .i _ => true
  | _ => false

/-! ## Python builtins used by the extraction layer -/

/-- Whitespace stripped by Python `int(str)`. -/
def isPySpace (c : Char) : Bool :=
  c = ' ' ∨ c = '\t' ∨ c = '\n' ∨ c = '\r'

/-- Numeric value of a list of decimal digit characters. -/
def natOfDigits (l : List Char) : Nat :=
  l.foldl (fun a c => a * 10 + (c.toNat - 48)) 0

/-- Models Python `int(s)` for a string `s`: optional surrounding
whitespace, optional sign, then one or more decimal digits; anything else
raises `ValueError` (`none`). -/
def pyInt (s : String) : Option Int :=
  let cs := ((s.toList.dropWhile isPySpace).reverse.dropWhile isPySpace).reverse
  match cs with
  | '-' :: rest =>
    if rest ≠ [] ∧ rest.all Char.isDigit then some (-(natOfDigits rest : Int)) else none
  | '+' :: rest =>
    if rest ≠ [] ∧ rest.all Char.isDigit then some (natOfDigits rest : Int) else none
  | l =>
    if l ≠ [] ∧ l.all Char.isDigit then some (natOfDigits l : Int) else none

/-- Models Python `int(v)` on a JSON value: ints pass through, strings are
parsed; lists/dicts raise `TypeError` (`none`).  (A float never reaches an
`int(...)` conversion in the embedded code paths, so it is mapped to
`none` as well.) -/
def pyIntOfVal : Val → Option Int
  | .i n => some n
  | .s x => pyInt x
  | _ => none

/-- Models Python `float(s)` parseability for a string: optional sign, then
either digits with an optional fractional part or a leading-dot fraction.
Exponent forms do not occur in the wire data handled here. -/
def pyFloatParseable (s : String) : Bool :=
  let core := match s.toList.dropWhile isPySpace with
    | '-' :: rest => rest
    | '+' :: rest => rest
    | l => l
  let core := (core.reverse.dropWhile isPySpace).reverse
  match core.span Char.isDigit with
  | (ds, []) => ds ≠ []
  | (ds, '.' :: fs) => (ds ≠ [] ∨ fs ≠ []) ∧ fs.all Char.isDigit
  | _ => false

/-! ## `League._merge_dicts` (league.py lines 641-649)

`_merge_dicts(target, source, filter)` copies every `source` binding whose
key is not in `filter` into `target` by plain assignment, mutating
`target`. -/

/-- Embedding of `League._merge_dicts`. -/
def merge_dicts (target source : PyDict) (filter : List String) : PyDict :=
  source.foldl
    (fun t p => if p.1 ∈ filter then t else aset t p.1 p.2)
    target

/-- Embedding of the dict produced by `League.settings` (league.py lines
159-171): league core fields merged with the settings fragment, the latter
filtered by `["roster_positions", "stat_categories"]`. -/
def league_settings_data (core settings_frag : PyDict) : PyDict :=
  merge_dicts (merge_dicts [] core []) settings_frag
    ["roster_positions", "stat_categories"]

theorem merge_dicts_nil_source (t : PyDict) (fl : List String) :
    merge_dicts t [] fl = t := rfl

theorem alookup_merge_dicts_of_not_mem_keys (t : PyDict) (s : PyDict)
    (fl : List String) (a : String) (ha : a ∉ s.map Prod.fst) :
    alookup (merge_dicts t s fl) a = alookup t a := by
  induction s generalizing t with
  | nil => rfl
  | cons p rest ih =>
    obtain ⟨pk, pv⟩ := p
    simp only [List.map_cons, List.mem_cons, not_or] at ha
    obtain ⟨hne, hrest⟩ := ha
    by_cases hf : pk ∈ fl
    · simpa [merge_dicts, hf] using ih t hrest
    · simp only [merge_dicts, List.foldl_cons, if_neg hf]
      have := ih (aset t pk pv) hrest
      simp only [merge_dicts] at this
      rw [this, alookup_aset_ne t pk pv a (fun h => hne h.symm)]

theorem alookup_merge_dicts_of_mem_filter (t : PyDict) (s : PyDict)
    (fl : List String) (a : String) (ha : a ∈ fl) :
    alookup (merge_dicts t s fl) a = alookup t a := by
  induction s generalizing t with
  | nil => rfl
  | cons p rest ih =>
    obtain ⟨pk, pv⟩ := p
    by_cases hf : pk ∈ fl
    · simpa [merge_dicts, hf] using ih t
    · simp only [merge_dicts, List.foldl_cons, if_neg hf]
      have := ih (aset t pk pv)
      simp only [merge_dicts] at this
      rw [this, alookup_aset_ne t pk pv a (fun h => hf (h ▸ ha))]

theorem alookup_merge_dicts_of_mem_source (t : PyDict) (s : PyDict)
    (fl : List String) (a : String) (v : Val)
    (hnd : (s.map Prod.fst).Nodup) (hmem : (a, v) ∈ s) (hf : a ∉ fl) :
    alookup (merge_dicts t s fl) a = some v := by
  induction s generalizing t with
  | nil => simp at hmem
  | cons p rest ih =>
    obtain ⟨pk, pv⟩ := p
    simp only [List.map_cons, List.nodup_cons] at hnd
    obtain ⟨hpk_notin, hnd_rest⟩ := hnd
    rcases List.mem_cons.mp hmem with heq | hrest
    · obtain ⟨hk, hv⟩ := Prod.mk.injEq .. ▸ heq
      subst hk; subst hv
      simp only [merge_dicts, List.foldl_cons, if_neg hf]
      have : a ∉ rest.map Prod.fst := hpk_notin
      have hrw := alookup_merge_dicts_of_not_mem_keys (aset t a v) rest fl a this
      simp only [merge_dicts] at hrw ⊢
      rw [hrw, alookup_aset_self]
    · have hpa : pk ≠ a := by
        intro h
        subst h
        exact hpk_notin (List.mem_map_of_mem Prod.fst hrest)
      by_cases hfp : pk ∈ fl
      · simpa [merge_dicts, hfp] using ih t hnd_rest hrest
      · simp only [merge_dicts, List.foldl_cons, if_neg hfp]
        have := ih (aset t pk pv) hnd_rest hrest
        simpa [merge_dicts] using this

/-! ## `League._pct_owned_from_page` (league.py lines 422-448)

The ownership fragments extracted by
`$..percent_owned.(coverage_type,value)` arrive as a flat sequence of
dicts; a `coverage_type` key appends a fresh `0` entry, a `value` key
overwrites the most recently appended entry (`po[i-1]` with `i = len(po)`).
A `value` fragment arriving before any `coverage_type` fragment indexes an
empty list (`IndexError`, modelled as `none`). -/

/-- Overwrite the last element of a list. -/
def set_last (l : List Val) (v : Val) : List Val :=
  l.dropLast ++ [v]

/-- Embedding of `League._pct_owned_from_page` (the accumulator `po` starts
empty at the call site). -/
def pct_owned_from_page : List PyDict → List Val → Option (List Val)
  | [], po => some po
  | ele :: rest, po =>
    let po := if (alookup ele "coverage_type").isSome then po ++ [Val.i 0] else po
    match alookup ele "value" with
    | some v => if po.isEmpty then none else pct_owned_from_page rest (set_last po v)
    | none => pct_owned_from_page rest po

/-! ## `League._players_from_page` (league.py lines 377-420) -/

/-- The Python test `plyr["status"] != "NA"` fails exactly when the status
value is the string `"NA"`. -/
def isNAStatus : Option Val → Bool
  | some (.s x) => x == "NA"
  | _ => false

/-- Normalization of one player: the extracted attribute fragments are
folded into a single flat dict, then `player_id` is coerced to int, `name`
is flattened to `name.full`, `eligible_positions` is reduced to the bare
position codes, the zipped ownership percentage is attached, and a missing
`status` defaults to the empty string (league.py lines 400-415). -/
def player_from_frags (frags : List PyDict) (po : Val) : Option PyDict := do
  let plyr := frags.foldl (fun d ele => ele.foldl (fun d p => aset d p.1 p.2) d) []
  let pidv ← alookup plyr "player_id"
  let pid ← pyIntOfVal pidv
  let plyr := aset plyr "player_id" (Val.i pid)
  let namev ← alookup plyr "name"
  let full ← match namev with
    | Val.d nd => alookup nd "full"
    | _ => none
  let plyr := aset plyr "name" full
  let epv ← alookup plyr "eligible_positions"
  let eps ← match epv with
    | Val.l xs => xs.mapM (fun x => match x with
        | Val.d ed => alookup ed "position"
        | _ => none)
    | _ => none
  let plyr := aset plyr "eligible_positions" (Val.l eps)
  let plyr := aset plyr "percent_owned" po
  let plyr := if (alookup plyr "status").isSome then plyr else aset plyr "status" (Val.s "")
  return plyr

/-- The `for i, pct_own in zip(...)` loop body: players whose status is
`"NA"` are normalized but not appended (league.py lines 417-419). -/
def extract_players : List (List PyDict × Val) → Option (List PyDict)
  | [] => some []
  | (frags, po) :: rest => do
    let plyr ← player_from_frags frags po
    let tail ← extract_players rest
    if isNAStatus (alookup plyr "status") then return tail else return plyr :: tail

/-- One remote page.  `none` stands for a page whose
`['fantasy_content']['league'][1]['players']` is the empty list; otherwise
the page carries the reported `$..players.count[0]`, the per-player
attribute-fragment lists, and the ownership fragment sequence. -/
structure PageData where
  count : Nat
  players : List (List PyDict)
  pcts : List PyDict

abbrev Page := Option PageData

/-- Embedding of `League._players_from_page`.  The zip iterates
`min count (len pct_owns)` times; player `k` out of range of the document
yields an empty fragment list (whose normalization then raises `KeyError`).
Zero iterations leave the loop variable `i` unbound, so the final
`return (i/2 + 1, fa)` raises `NameError` (`none`). -/
def players_from_page : Page → Option (Nat × List PyDict)
  | none => some (0, [])
  | some pd => do
    let po ← pct_owned_from_page pd.pcts []
    let iters := min pd.count po.length
    if iters = 0 then none
    else do
      let pairs := (List.range iters).map
        (fun k => (pd.players.getD k [], po.getD k (Val.i 0)))
      let fa ← extract_players pairs
      return (iters, fa)

/-! ## `League._fetch_players` (league.py lines 348-375)

The loop requests a page while the accumulated offset is a multiple of 25,
stops early when a page contributes zero records, and otherwise advances
the offset by the count parsed from the page.  The fuel argument bounds the
number of iterations (the Python loop can run unboundedly for an
adversarial service); the returned list records the offsets of the remote
requests actually issued, in order. -/

def fetch_players_loop (remote : Nat → Page) :
    Nat → Nat → List PyDict → List Nat → Option (List PyDict × List Nat)
  | 0, _, _, _ => none
  | fuel + 1, plyrIndex, plyrs, log =>
    if plyrIndex % 25 = 0 then
      match players_from_page (remote plyrIndex) with
      | none => none
      | some (num, fa) =>
        if fa.length = 0 then some (plyrs, log ++ [plyrIndex])
        else fetch_players_loop remote fuel (plyrIndex + num) (plyrs ++ fa) (log ++ [plyrIndex])
    else some (plyrs, log)

/-- Embedding of `League._fetch_players` for a fixed status/position (the
remote function is `get_players_raw` at the given offset). -/
def fetch_players (fuel : Nat) (remote : Nat → Page) : Option (List PyDict × List Nat) :=
  fetch_players_loop remote fuel 0 [] []

/-! ## The player-list caches (league.py lines 271-346)

`free_agents` keys a dict by position; `waivers` and `taken_players` guard
a single cached list with `if not cache:`, which treats a cached *empty*
list the same as "never fetched". -/

structure FAState where
  free_agent_cache : List (String × List PyDict)
  waivers_cache : Option (List PyDict)
  taken_players_cache : Option (List PyDict)

/-- Embedding of `League.free_agents` (its third component counts the
remote calls issued). -/
def free_agents (remote : String → Nat → Page) (fuel : Nat) (position : String)
    (st : FAState) : Option (List PyDict × FAState × Nat) :=
  match alookup st.free_agent_cache position with
  | some l => some (l, st, 0)
  | none =>
    match fetch_players fuel (remote position) with
    | none => none
    | some (l, log) =>
      some (l, { st with free_agent_cache := aset st.free_agent_cache position l },
        log.length)

/-- Embedding of `League.waivers`; the match on `some (x :: xs)` is the
Python truthiness test `if not self.waivers_cache:`. -/
def waivers (remote : Nat → Page) (fuel : Nat) (st : FAState) :
    Option (List PyDict × FAState × Nat) :=
  match st.waivers_cache with
  | some (x :: xs) => some (x :: xs, st, 0)
  | _ =>
    match fetch_players fuel remote with
    | none => none
    | some (l, log) => some (l, { st with waivers_cache := some l }, log.length)

/-- Embedding of `League.taken_players`. -/
def taken_players (remote : Nat → Page) (fuel : Nat) (st : FAState) :
    Option (List PyDict × FAState × Nat) :=
  match st.taken_players_cache with
  | some (x :: xs) => some (x :: xs, st, 0)
  | _ =>
    match fetch_players fuel remote with
    | none => none
    | some (l, log) => some (l, { st with taken_players_cache := some l }, log.length)

/-! ## Concrete page fixtures used by the C1 theorems -/

/-- A well-formed wire player: fragments for id, name, position type and
eligible positions, with the id emitted as a string. -/
def mk_raw_player (pid : Nat) : List PyDict :=
  [[("player_id", Val.s (toString pid))],
   [("name", Val.d [("full", Val.s ("P" ++ toString pid))])],
   [("position_type", Val.s "B")],
   [("eligible_positions", Val.l [Val.d [("position", Val.s "C")]])]]

/-- Ownership fragments for `n` players: one `coverage_type` and one
`value` fragment per player. -/
def mk_pcts (n : Nat) : List PyDict :=
  ((List.range n).map
    (fun _ => [[("coverage_type", Val.s "week")], [("value", Val.i 50)]])).flatten

/-- A page reporting `n` players with ids `base, base+1, ...`. -/
def mk_page (n base : Nat) : Page :=
  some ⟨n, (List.range n).map (fun k => mk_raw_player (base + k)), mk_pcts n⟩

/-- A remote service serving 25 players at offset 0, 10 players at offset
25, and 5 more players at every further offset: no page ever yields zero
records. -/
def cex_remote : Nat → Page := fun idx =>
  if idx = 0 then mk_page 25 0
  else if idx = 25 then mk_page 10 100
  else mk_page 5 200

/-- The records `cex_remote` serves on its first page. -/
def cex_r1 : List PyDict := ((players_from_page (cex_remote 0)).getD (0, [])).2

/-- The records `cex_remote` serves on its second page. -/
def cex_r2 : List PyDict := ((players_from_page (cex_remote 25)).getD (0, [])).2

/-- C1, counterexample: pagination does *not* terminate only via the
zero-records rule.  Against `cex_remote` the fetch makes exactly the two
calls at offsets 0 and 25 and returns 35 records, although the second page
yielded 10 (not 0) records and the page at the next offset 35 would have
yielded 5 further records: the loop stops because the advanced offset 35
is not a multiple of 25, i.e. a short page is itself a termination
signal. -/
theorem fetch_players_stops_on_short_page_cex :
    (fetch_players 10 cex_remote).map (fun r => (r.1.length, r.2)) = some (35, [0, 25]) ∧
    (players_from_page (cex_remote 0)).map (fun r => r.2.length) = some 25 ∧
    (players_from_page (cex_remote 25)).map (fun r => r.2.length) = some 10 ∧
    (players_from_page (cex_remote 35)).map (fun r => r.2.length) = some 5 := by
  exact ⟨rfl, rfl, rfl, rfl⟩

/-- C1 (amended): in a paginated player fetch the offset advances by the
exact count parsed from each page, and pagination stops either when a page
yields zero records or when the advanced offset stops being a multiple of
the 25-per-page stride (so a short page ends the loop).  In particular,
when page 1 parses to 25 records (count 25) and page 2 to 10 records
(count 10), the fetch returns exactly the 35 records of the two pages,
issues exactly the two remote calls at offsets 0 and 25, and the result
has no duplicates whenever the two pages carry distinct player ids. -/
theorem fetch_players_25_10_pages (remote : Nat → Page) (fuel : Nat)
    (r1 r2 : List PyDict)
    (h0 : players_from_page (remote 0) = some (25, r1))
    (h1 : r1.length = 25)
    (h2 : players_from_page (remote 25) = some (10, r2))
    (h3 : r2.length = 10)
    (hfuel : 3 ≤ fuel)
    (hnd : ((r1 ++ r2).map (fun r => (alookup r "player_id").bind pyIntOfVal)).Nodup) :
    fetch_players fuel remote = some (r1 ++ r2, [0, 25]) ∧
    (r1 ++ r2).length = 35 ∧ (r1 ++ r2).Nodup := by
  obtain ⟨k, rfl⟩ : ∃ k, fuel = k + 3 := ⟨fuel - 3, by omega⟩
  refine ⟨?_, by simp [h1, h3], hnd.of_map⟩
  show fetch_players_loop remote (k + 3) 0 [] [] = some (r1 ++ r2, [0, 25])
  rw [show k + 3 = (k + 2) + 1 from rfl, fetch_players_loop]
  simp only [Nat.zero_mod, if_pos rfl, h0, h1]
  norm_num
  rw [show k + 2 = (k + 1) + 1 from rfl, fetch_players_loop]
  simp only [show 0 + 25 = 25 from rfl, Nat.reduceMod, if_pos rfl, h2, h3]
  norm_num
  rw [fetch_players_loop]
  norm_num

/-- Witness for C1 (amended) at the concrete remote `cex_remote`. -/
theorem fetch_players_25_10_pages_witness :
    fetch_players 10 cex_remote = some (cex_r1 ++ cex_r2, [0, 25]) ∧
    (cex_r1 ++ cex_r2).length = 35 ∧ (cex_r1 ++ cex_r2).Nodup :=
  fetch_players_25_10_pages cex_remote 10 cex_r1 cex_r2 rfl rfl rfl rfl
    (by omega) (by decide)

/-- C2, counterexample: `_merge_dicts` assigns `target[key] = value` for
every non-excluded source key, so on a collision the value from the
*later* fragment replaces the earlier one — first-seen-wins fails at the
very first colliding key. -/
theorem merge_dicts_first_seen_wins_cex :
    alookup (merge_dicts [("a", Val.i 1)] [("a", Val.i 2)] []) "a" = some (Val.i 2) ∧
    alookup (merge_dicts [("a", Val.i 1)] [("a", Val.i 2)] []) "a" ≠ some (Val.i 1) := by
  refine ⟨rfl, ?_⟩
  intro h
  rw [show alookup (merge_dicts [("a", Val.i 1)] [("a", Val.i 2)] []) "a"
      = some (Val.i 2) from rfl] at h
  simp at h

/-- C2 (amended): when a key occurs in both an earlier and a later fragment
and is not in the exclusion list, the value from the *later* fragment wins
(last-seen-wins for colliding keys); keys named in the exclusion list are
never taken from the excluded fragment (their lookup in the merged dict is
that of the earlier accumulated dict), and in `League.settings` the
exclusion list for the settings fragment is exactly
`roster_positions`/`stat_categories`, so those keys come only from the
league core fragment. -/
theorem merge_dicts_last_seen_wins (t s : PyDict) (fl : List String) (k : String)
    (hnd : (s.map Prod.fst).Nodup) :
    (∀ v, (k, v) ∈ s → k ∉ fl → alookup (merge_dicts t s fl) k = some v) ∧
    (k ∈ fl → alookup (merge_dicts t s fl) k = alookup t k) ∧
    (∀ core sett : PyDict,
      alookup (league_settings_data core sett) "roster_positions"
        = alookup (merge_dicts [] core []) "roster_positions" ∧
      alookup (league_settings_data core sett) "stat_categories"
        = alookup (merge_dicts [] core []) "stat_categories") := by
  refine ⟨?_, ?_, ?_⟩
  · intro v hmem hf
    exact alookup_merge_dicts_of_mem_source t s fl k v hnd hmem hf
  · intro hf
    exact alookup_merge_dicts_of_mem_filter t s fl k hf
  · intro core sett
    exact ⟨alookup_merge_dicts_of_mem_filter _ sett _ _ (by simp),
      alookup_merge_dicts_of_mem_filter _ sett _ _ (by simp)⟩

/-- Witness for C2 (amended): a colliding key takes the later value and an
excluded key stays with the earlier fragment. -/
theorem merge_dicts_last_seen_wins_witness :
    (∀ v, ("a", v) ∈ [("a", Val.i 2), ("roster_positions", Val.i 9)] →
      "a" ∉ ["roster_positions"] →
      alookup (merge_dicts [("a", Val.i 1), ("roster_positions", Val.i 7)]
        [("a", Val.i 2), ("roster_positions", Val.i 9)] ["roster_positions"]) "a" = some v) ∧
    ("a" ∈ ["roster_positions"] →
      alookup (merge_dicts [("a", Val.i 1), ("roster_positions", Val.i 7)]
        [("a", Val.i 2), ("roster_positions", Val.i 9)] ["roster_positions"]) "a"
        = alookup [("a", Val.i 1), ("roster_positions", Val.i 7)] "a") ∧
    (∀ core sett : PyDict,
      alookup (league_settings_data core sett) "roster_positions"
        = alookup (merge_dicts [] core []) "roster_positions" ∧
      alookup (league_settings_data core sett) "stat_categories"
        = alookup (merge_dicts [] core []) "stat_categories") :=
  merge_dicts_last_seen_wins [("a", Val.i 1), ("roster_positions", Val.i 7)]
    [("a", Val.i 2), ("roster_positions", Val.i 9)] ["roster_positions"] "a"
    (by decide)

/-! ## `League.week_date_range` (league.py lines 242-269, 450-467)

The scoreboard service is abstracted as the parsed current week together
with the parsed `(week_start, week_end)` pair per requested week; dates are
represented by their ordinals (the derivation only ever adds whole days).
Each operation returns its value, the updated cache state, and the number
of remote (`get_scoreboard_raw`) calls it issued. -/

structure WeekRemote where
  cw : Int
  scoreboard : Int → Int × Int

structure LgWeekState where
  current_week_cache : Option Int
  week_date_range_cache : List (Int × (Int × Int))

/-- Embedding of `League.current_week`. -/
def current_week (r : WeekRemote) (st : LgWeekState) : Int × LgWeekState × Nat :=
  match st.current_week_cache with
  | some c => (c, st, 0)
  | none => (r.cw, { st with current_week_cache := some r.cw }, 1)

/-- Embedding of `League._date_range_of_played_or_current_week`. -/
def date_range_of_played_or_current_week (r : WeekRemote) (week : Int)
    (st : LgWeekState) : (Int × Int) × LgWeekState × Nat :=
  match alookup st.week_date_range_cache week with
  | some rng => (rng, st, 0)
  | none =>
    let rng := r.scoreboard week
    (rng,
      { st with week_date_range_cache := aset st.week_date_range_cache week rng }, 1)

/-- Embedding of `League.week_date_range`.  The `RuntimeError` branch
formats its message with a further `self.current_week()` call (a cache hit
by then). -/
def week_date_range (r : WeekRemote) (week : Int) (st : LgWeekState) :
    Except String (Int × Int) × LgWeekState × Nat :=
  let res1 := current_week r st
  let c := res1.1
  let st1 := res1.2.1
  let n1 := res1.2.2
  if week ≤ c ∨ week = 1 then
    let res2 := date_range_of_played_or_current_week r week st1
    (.ok res2.1, res2.2.1, n1 + res2.2.2)
  else
    let res2 := current_week r st1
    let c2 := res2.1
    let st2 := res2.2.1
    let n2 := res2.2.2
    if week = c2 + 1 then
      let res3 := date_range_of_played_or_current_week r (week - 1) st2
      let cur_end := res3.1.2
      (.ok (cur_end + 1, cur_end + 7), res3.2.1, n1 + n2 + res3.2.2)
    else
      let res3 := current_week r st2
      (.error ("Cannot request date range more than one week past the current week.  "
          ++ "The requested week is " ++ toString week ++ ", but current week is "
          ++ toString res3.1 ++ "."),
        res3.2.1, n1 + n2 + res3.2.2)

/-- Replace the date-range cache of a session state. -/
def set_wdr_cache (st : LgWeekState) (cache : List (Int × (Int × Int))) : LgWeekState :=
  { st with week_date_range_cache := cache }

/-- Scoreboard fixture: current week 5, week `w` spanning ordinals
`10*w .. 10*w + 6`. -/
def c3_remote : WeekRemote := ⟨5, fun w => (10 * w, 10 * w + 6)⟩

/-- A session that has already cached the current week (5) but no date
ranges. -/
def c3_state : LgWeekState := ⟨some 5, []⟩

/-- C3, counterexample: with current week 5 cached and an empty date-range
cache, `week_date_range(6)` (= current week + 1) issues one remote
scoreboard call (to resolve week 5's range), not zero as claimed. -/
theorem week_date_range_next_week_remote_call_cex :
    week_date_range c3_remote 6 c3_state
      = (.ok (57, 63), ⟨some 5, [(5, (50, 56))]⟩, 1) := rfl

/-- C3 (amended): with the current week `c` already cached,
`week_date_range(w)` implements the three-case rule: (1) for `w <= c` or
`w == 1` it returns the scoreboard-derived range, cached by week number —
a cache hit answers with no remote call, a miss issues exactly one remote
call and a repeated call then returns the same stable pair with no further
remote call; (2) for `w == c + 1` it returns (week c's end date + 1 day,
week c's end date + 7 days), issuing no remote call when week c's range is
already cached and exactly one remote call (to resolve week c's range)
otherwise; (3) for `w > c + 1` it returns the descriptive `RuntimeError`
without issuing any remote call. -/
theorem week_date_range_cases (r : WeekRemote) (c w : Int) (st : LgWeekState)
    (hc : st.current_week_cache = some c) :
    ((w ≤ c ∨ w = 1) →
      (∀ rng, alookup st.week_date_range_cache w = some rng →
        week_date_range r w st = (.ok rng, st, 0)) ∧
      (alookup st.week_date_range_cache w = none →
        week_date_range r w st
          = (.ok (r.scoreboard w),
             set_wdr_cache st (aset st.week_date_range_cache w (r.scoreboard w)), 1) ∧
        week_date_range r w
            (set_wdr_cache st (aset st.week_date_range_cache w (r.scoreboard w)))
          = (.ok (r.scoreboard w),
             set_wdr_cache st (aset st.week_date_range_cache w (r.scoreboard w)), 0))) ∧
    (w = c + 1 → w ≠ 1 →
      (∀ s0 e0, alookup st.week_date_range_cache c = some (s0, e0) →
        week_date_range r w st = (.ok (e0 + 1, e0 + 7), st, 0)) ∧
      (alookup st.week_date_range_cache c = none →
        week_date_range r w st
          = (.ok ((r.scoreboard c).2 + 1, (r.scoreboard c).2 + 7),
             set_wdr_cache st (aset st.week_date_range_cache c (r.scoreboard c)), 1))) ∧
    (c + 1 < w → w ≠ 1 →
      week_date_range r w st
        = (.error ("Cannot request date range more than one week past the current week.  "
            ++ "The requested week is " ++ toString w ++ ", but current week is "
            ++ toString c ++ "."), st, 0)) := by
  have hcur : current_week r st = (c, st, 0) := by
    simp [current_week, hc]
  refine ⟨?_, ?_, ?_⟩
  · intro hw
    constructor
    · intro rng hhit
      simp [week_date_range, hcur, hw, date_range_of_played_or_current_week, hhit]
    · intro hmiss
      constructor
      · simp [week_date_range, hcur, hw, date_range_of_played_or_current_week, hmiss,
          set_wdr_cache]
      · have hc2 : (set_wdr_cache st
            (aset st.week_date_range_cache w (r.scoreboard w))).current_week_cache
            = some c := hc
        have hcur2 : current_week r
            (set_wdr_cache st (aset st.week_date_range_cache w (r.scoreboard w)))
            = (c, set_wdr_cache st (aset st.week_date_range_cache w (r.scoreboard w)), 0) := by
          simp [current_week, hc2]
        have hhit2 : alookup (set_wdr_cache st
            (aset st.week_date_range_cache w (r.scoreboard w))).week_date_range_cache w
            = some (r.scoreboard w) := by
          simp [set_wdr_cache, alookup_aset_self]
        simp [week_date_range, hcur2, hw, date_range_of_played_or_current_week, hhit2]
  · intro hw h1
    subst hw
    have h0 : ¬(c = 0) := by omega
    have hnotle : ¬(c + 1 ≤ c ∨ c + 1 = 1) := by
      rintro (h | h) <;> omega
    constructor
    · intro s0 e0 hhit
      simp [week_date_range, hcur, hnotle, h0,
        date_range_of_played_or_current_week, hhit]
    · intro hmiss
      simp [week_date_range, hcur, hnotle, h0,
        date_range_of_played_or_current_week, hmiss, set_wdr_cache]
  · intro hlt h1
    have hnotle : ¬(w ≤ c ∨ w = 1) := by
      rintro (h | h) <;> omega
    have hne : ¬(w = c + 1) := by omega
    simp [week_date_range, hcur, hnotle, hne]

/-- Witness for C3 (amended), case `w = c + 1` with week `c`'s range not
yet cached: exactly one remote call is issued. -/
theorem week_date_range_cases_witness :
    week_date_range c3_remote 6 c3_state
      = (.ok ((c3_remote.scoreboard 5).2 + 1, (c3_remote.scoreboard 5).2 + 7),
         set_wdr_cache c3_state
           (aset c3_state.week_date_range_cache 5 (c3_remote.scoreboard 5)), 1) :=
  ((week_date_range_cases c3_remote 5 6 c3_state rfl).2.1 (by norm_num)
    (by norm_num)).2 rfl

/-! ## `Player._parse_player_detail` (player.py lines 194-206)

A raw player detail is the list `json[str(i)]['player']`: each element
(category) is either a dict — iterated by key — or a list of dicts whose
key/value pairs are copied over. -/

inductive Category where
  | dict (d : PyDict)
  | list (ds : List PyDict)

abbrev RawDetail := List Category

/-- Embedding of `Player._parse_player_detail`. -/
def parse_player_detail (plyr : RawDetail) : PyDict :=
  plyr.foldl
    (fun pd cat =>
      match cat with
      | .dict d => d.foldl (fun pd p => aset pd p.1 p.2) pd
      | .list ds => ds.foldl (fun pd d => d.foldl (fun pd p => aset pd p.1 p.2) pd) pd)
    []

/-! ## `Player._calc_lookup_for_player_detail` (player.py lines 238-268)

For an ID-list request the IDs absent from the cache are collected in
request order and then split into chunks of at most 25, repeatedly slicing
`fetch_list[-25:]` off the end. -/

/-- The `while len(fetch_list) > 0` splitting loop. -/
def split_list (fetch_list : List Int) : List (List Int) :=
  if h : 25 < fetch_list.length then
    fetch_list.drop (fetch_list.length - 25)
      :: split_list (fetch_list.take (fetch_list.length - 25))
  else if fetch_list.length ≠ 0 then [fetch_list]
  else []
termination_by fetch_list.length
decreasing_by simp [List.length_take]; omega

/-- Embedding of `Player._calc_lookup_for_player_detail` for an ID-list
request (the cache holds the integer-keyed entries of
`player_details_cache`; a string search key can never equal an int ID, so
the int-keyed view is exact). -/
def calc_lookup_ids (cache : List (Int × PyDict)) (player : List Int) :
    List (List Int) :=
  split_list (player.filter (fun p => !(alookup cache p).isSome))

/-! ## `Player._cache_player_details` (player.py lines 208-236) -/

/-- Cache every detail of one fetched batch under `int(details['player_id'])`
(`KeyError`/`ValueError` modelled as `none`). -/
def cache_detail_chunk (rs : List RawDetail) (cache : List (Int × PyDict)) :
    Option (List (Int × PyDict)) :=
  match rs with
  | [] => some cache
  | r :: rest =>
    let details := parse_player_detail r
    match (alookup details "player_id").bind pyIntOfVal with
    | none => none
    | some key => cache_detail_chunk rest (aset cache key details)

/-- Process chunks in the order the `while` loop visits them.  The loop
takes `lookup.pop()` — the *last* chunk first — so the caller passes the
chunk list reversed; the returned log lists the batches actually requested
in request order. -/
def process_chunks_front (remote : List Int → List RawDetail) :
    List (List Int) → List (Int × PyDict) →
    Option (List (Int × PyDict) × List (List Int))
  | [], cache => some (cache, [])
  | ids :: rest, cache =>
    match cache_detail_chunk (remote ids) cache with
    | none => none
    | some cache2 =>
      match process_chunks_front remote rest cache2 with
      | none => none
      | some (cache3, log) => some (cache3, ids :: log)

/-- The `while lookup ...: ids = lookup.pop(); ...` loop of
`_cache_player_details` for an ID-list request. -/
def process_id_chunks (remote : List Int → List RawDetail)
    (chunks : List (List Int)) (cache : List (Int × PyDict)) :
    Option (List (Int × PyDict) × List (List Int)) :=
  process_chunks_front remote chunks.reverse cache

/-- Embedding of `Player.player_details` for a list of player IDs: compute
the missing chunks, fetch and cache them, then assemble the answer from the
cache in request order (`KeyError` on a still-missing ID is `none`).
Returns the records, the updated cache, and the log of batch requests
issued. -/
def player_details_by_ids (remote : List Int → List RawDetail)
    (cache : List (Int × PyDict)) (player : List Int) :
    Option (List PyDict × List (Int × PyDict) × List (List Int)) :=
  match process_id_chunks remote (calc_lookup_ids cache player) cache with
  | none => none
  | some (cache2, log) =>
    match player.mapM (fun p => alookup cache2 p) with
    | none => none
    | some recs => some (recs, cache2, log)

/-- Embedding of `Player.player_details` for a search string: a cached
search returns its list with no remote call; otherwise one remote call is
made and the results are appended under the search key — but only when at
least one result came back, so an empty search result is *not* cached. -/
def player_details_by_search (remote : String → List RawDetail)
    (cache : List (String × List PyDict)) (search : String) :
    List PyDict × List (String × List PyDict) × Nat :=
  match alookup cache search with
  | some cached => (cached, cache, 0)
  | none =>
    match (remote search).map parse_player_detail with
    | [] => ([], cache, 1)
    | r :: rs => (r :: rs, aset cache search (r :: rs), 1)

theorem split_list_small (l : List Int) (hne : l ≠ []) (hlen : l.length ≤ 25) :
    split_list l = [l] := by
  rw [split_list]
  rw [dif_neg (by omega)]
  rw [if_pos (by simpa using hne)]

theorem cache_detail_chunk_spec (rs : List RawDetail) (pids : List Int)
    (cache : List (Int × PyDict))
    (hr : rs.map (fun r => (alookup (parse_player_detail r) "player_id").bind pyIntOfVal)
      = pids.map some) :
    ∃ c2, cache_detail_chunk rs cache = some c2 ∧
      (∀ p, p ∉ pids → alookup c2 p = alookup cache p) ∧
      (∀ p ∈ pids, ∃ j, ∃ hj : j < rs.length,
        alookup c2 p = some (parse_player_detail (rs.get ⟨j, hj⟩))) := by
  induction rs generalizing pids cache with
  | nil =>
    have : pids = [] := by
      cases pids with
      | nil => rfl
      | cons q qs => simp at hr
    subst this
    exact ⟨cache, rfl, fun p _ => rfl, by simp⟩
  | cons r rest ih =>
    cases pids with
    | nil => simp at hr
    | cons q qids =>
      simp only [List.map_cons, List.cons.injEq] at hr
      obtain ⟨hq, hrest⟩ := hr
      obtain ⟨c2, hc2, hpres, hmem⟩ := ih qids (aset cache q (parse_player_detail r)) hrest
      refine ⟨c2, ?_, ?_, ?_⟩
      · simp only [cache_detail_chunk, hq]
        exact hc2
      · intro p hp
        simp only [List.mem_cons, not_or] at hp
        obtain ⟨hpq, hpqids⟩ := hp
        rw [hpres p hpqids, alookup_aset_ne _ _ _ _ (fun h => hpq h.symm)]
      · intro p hp
        by_cases hpqids : p ∈ qids
        · obtain ⟨j, hj, hval⟩ := hmem p hpqids
          exact ⟨j + 1, by simpa using Nat.succ_lt_succ hj, hval⟩
        · have hpq : p = q := by
            rcases List.mem_cons.mp hp with h | h
            · exact h
            · exact absurd h hpqids
          subst hpq
          refine ⟨0, by simp, ?_⟩
          rw [hpres p hpqids, alookup_aset_self]
          rfl

theorem mapM_alookup_total {δ : Type} (f : Int → Option δ) (l : List Int)
    (h : ∀ x ∈ l, (f x).isSome) :
    ∃ rs, l.mapM f = some rs ∧ rs.length = l.length ∧
      ∀ i, ∀ hi : i < l.length, rs[i]? = f (l.get ⟨i, hi⟩) := by
  induction l with
  | nil => exact ⟨[], rfl, rfl, by simp⟩
  | cons x xs ih =>
    obtain ⟨y, hy⟩ := Option.isSome_iff_exists.mp (h x (List.mem_cons_self x xs))
    obtain ⟨rs, hrs, hlen, hidx⟩ := ih (fun z hz => h z (List.mem_cons_of_mem x hz))
    refine ⟨y :: rs, ?_, by simp [hlen], ?_⟩
    · rw [List.mapM_cons, hy, hrs]
      rfl
    · intro i hi
      cases i with
      | zero => simpa using hy.symm
      | succ n =>
        simp only [List.getElem?_cons_succ, List.get_cons_succ]
        exact hidx n (by simpa using Nat.lt_of_succ_lt_succ hi)

/-- C4: a `player_details` request for a list of IDs partitions the
requested set into cached and missing IDs; when between 1 and 25 IDs are
missing and the remote batch answers each of them, exactly one remote
batch call is issued, containing exactly the missing IDs; previously
cached entries are untouched, missing entries are filled from the fetched
batch, and the returned list has one entry per requested ID, assembled
from the cache in the original request order. -/
theorem player_details_partition (remote : List Int → List RawDetail)
    (cache : List (Int × PyDict)) (player missing : List Int)
    (hmiss : missing = player.filter (fun p => !(alookup cache p).isSome))
    (hne : missing ≠ []) (hlen : missing.length ≤ 25)
    (hr : (remote missing).map
        (fun r => (alookup (parse_player_detail r) "player_id").bind pyIntOfVal)
      = missing.map some) :
    ∃ recs c2,
      player_details_by_ids remote cache player = some (recs, c2, [missing]) ∧
      recs.length = player.length ∧
      (∀ i, ∀ hi : i < player.length, recs[i]? = alookup c2 (player.get ⟨i, hi⟩)) ∧
      (∀ p, (alookup cache p).isSome → alookup c2 p = alookup cache p) ∧
      (∀ p ∈ missing, ∃ j, ∃ hj : j < (remote missing).length,
        alookup c2 p = some (parse_player_detail ((remote missing).get ⟨j, hj⟩))) := by
  obtain ⟨c2, hc2, hpres, hmem⟩ := cache_detail_chunk_spec (remote missing) missing cache hr
  have hcached_notin : ∀ p, (alookup cache p).isSome → p ∉ missing := by
    intro p hp hmemp
    rw [hmiss] at hmemp
    have := (List.mem_filter.mp hmemp).2
    simp [hp] at this
  have hpres' : ∀ p, (alookup cache p).isSome → alookup c2 p = alookup cache p :=
    fun p hp => hpres p (hcached_notin p hp)
  have htotal : ∀ p ∈ player, (alookup c2 p).isSome := by
    intro p hp
    by_cases hm : p ∈ missing
    · obtain ⟨j, hj, hval⟩ := hmem p hm
      simp [hval]
    · have hcached : (alookup cache p).isSome := by
        by_contra hnc
        exact hm (hmiss ▸ List.mem_filter.mpr ⟨hp, by simpa using hnc⟩)
      rw [hpres p hm]
      exact hcached
  obtain ⟨recs, hrecs, hreclen, hrecidx⟩ := mapM_alookup_total (alookup c2) player htotal
  refine ⟨recs, c2, ?_, hreclen, hrecidx, hpres', hmem⟩
  unfold player_details_by_ids process_id_chunks calc_lookup_ids
  rw [← hmiss, split_list_small missing hne hlen]
  simp only [List.reverse_cons, List.reverse_nil, List.nil_append, process_chunks_front,
    hc2, hrecs]

/-- A well-formed wire player detail for one ID. -/
def c4_detail (pid : Int) : RawDetail :=
  [Category.list [[("player_id", Val.s (toString pid))],
                  [("name", Val.d [("full", Val.s "X")])]]]

/-- A cache already holding details for IDs 1 and 2. -/
def c4_cache : List (Int × PyDict) :=
  [(1, [("player_id", Val.s "1")]), (2, [("player_id", Val.s "2")])]

/-- A remote service answering each requested ID with one detail. -/
def c4_remote : List Int → List RawDetail := fun ids => ids.map c4_detail

/-- Witness for C4 at the request `[1, 2, 3]` with 1 and 2 cached: the one
batch call contains only ID 3 and the answer is assembled in request
order. -/
theorem player_details_partition_witness :
    ∃ recs c2,
      player_details_by_ids c4_remote c4_cache [1, 2, 3] = some (recs, c2, [[3]]) ∧
      recs.length = ([1, 2, 3] : List Int).length ∧
      (∀ i, ∀ hi : i < ([1, 2, 3] : List Int).length,
        recs[i]? = alookup c2 (([1, 2, 3] : List Int).get ⟨i, hi⟩)) ∧
      (∀ p, (alookup c4_cache p).isSome → alookup c2 p = alookup c4_cache p) ∧
      (∀ p ∈ ([3] : List Int), ∃ j, ∃ hj : j < (c4_remote [3]).length,
        alookup c2 p = some (parse_player_detail ((c4_remote [3]).get ⟨j, hj⟩))) :=
  player_details_partition c4_remote c4_cache [1, 2, 3] [3]
    (by decide) (by decide) (by decide) (by decide)

/-! ## `Player._get_static_id_map` and friends (player.py lines 270-340) -/

/-- Embedding of `Player._get_static_mlb_id_map` (a Python dict literal, in
source order; all keys are distinct). -/
def get_static_mlb_id_map : List (Int × String) :=
  [(0, "G"), (2, "GS"), (3, "AVG"), (4, "OBP"), (5, "SLG"), (6, "AB"), (7, "R"),
   (8, "H"), (9, "1B"), (10, "2B"), (11, "3B"), (12, "HR"), (13, "RBI"),
   (14, "SH"), (15, "SF"), (16, "SB"), (17, "CS"), (18, "BB"), (19, "IBB"),
   (20, "HBP"), (21, "SO"), (22, "GDP"), (23, "TB"), (25, "GS"), (26, "ERA"),
   (27, "WHIP"), (28, "W"), (29, "L"), (32, "SV"), (34, "H"), (35, "BF"),
   (36, "R"), (37, "ER"), (38, "HR"), (39, "BB"), (40, "IBB"), (41, "HBP"),
   (42, "K"), (43, "BK"), (44, "WP"), (48, "HLD"), (50, "IP"), (51, "PO"),
   (52, "A"), (53, "E"), (54, "FLD%"), (55, "OPS"), (56, "SO/W"), (57, "SO9"),
   (65, "PA"), (84, "BS"), (85, "NSV"), (87, "DP"),
   (1032, "FIP"), (1021, "GB%"), (1022, "FB%"), (1031, "BABIP"),
   (1036, "HR/FB%"), (1037, "GB"), (1038, "FB"), (1020, "GB/FB"),
   (1018, "P/IP"), (1034, "ERA-"), (1019, "P/S"), (1024, "STR"),
   (1025, "IRS%"), (1026, "RS"), (1027, "RS/9"), (1028, "AVG"),
   (1029, "OBP"), (1030, "SLG"), (1033, "WAR"),
   (1035, "HR/FB%"), (1008, "GB/FB"), (1013, "BABIP"), (1002, "ISO"),
   (1001, "CT%"), (1014, "wOBA"), (1015, "wRAA"), (1011, "RC"),
   (1005, "TOB"), (1006, "GB"), (1009, "GB%"), (1007, "FB"), (1010, "FB%"),
   (1016, "OPS+"), (1004, "P/PA"), (1039, "SB%"), (1012, "GDPR"),
   (1003, "SL"), (1017, "FR"), (1040, "bWAR"), (1041, "brWAR"),
   (1042, "WAR")]

/-- Embedding of `Player._get_static_nhl_id_map`. -/
def get_static_nhl_id_map : List (Int × String) :=
  [(0, "GP"), (1, "G"), (2, "A"), (3, "PTS"), (4, "+/-"), (5, "PIM"),
   (6, "PPG"), (7, "PPA"), (8, "PPP"), (12, "GWG"), (14, "SOG"), (15, "S%"),
   (18, "GS"), (19, "W"), (20, "L"), (22, "GA"), (23, "GAA"),
   (24, "SA"), (25, "SV"), (26, "SV%"), (27, "SHO"), (28, "MIN"),
   (1001, "PPT"), (1002, "Avg-PPT"), (1003, "SHT"), (1004, "Avg-SHT"),
   (1005, "COR"), (1006, "FEN"), (1007, "Off-ZS"), (1008, "Def-ZS"),
   (1009, "ZS-Pct"), (1010, "GStr"), (1011, "Shifts")]

/-- Embedding of `Player._get_static_id_map`: distinct table per sport
code, empty for unknown codes. -/
def get_static_id_map (game_code : String) : List (Int × String) :=
  if game_code = "mlb" then get_static_mlb_id_map
  else if game_code = "nhl" then get_static_nhl_id_map
  else []

/-- Embedding of `Player._cache_stats_id_map` on a cache miss: start from
the static table and overlay each `(stat_id, display_name)` fragment from
the league settings, converting the wire `stat_id` with `int(...)`
(`ValueError` modelled as `none`). -/
def cache_stats_id_map (game_code : String) (cats : List (String × String)) :
    Option (List (Int × String)) :=
  cats.foldlM (fun m p => (pyInt p.1).map (fun n => aset m n p.2))
    (get_static_id_map game_code)

theorem overlay_foldl_spec (cats : List (String × String))
    (parsed : List (Int × String)) (base : List (Int × String))
    (hp : cats.mapM (fun p => (pyInt p.1).map (fun n => (n, p.2))) = some parsed)
    (hnd : (parsed.map Prod.fst).Nodup) :
    ∃ m, cats.foldlM (fun m p => (pyInt p.1).map (fun n => aset m n p.2)) base
        = some m ∧
      (∀ k v, (k, v) ∈ parsed → alookup m k = some v) ∧
      (∀ k, k ∉ parsed.map Prod.fst → alookup m k = alookup base k) := by
  induction cats generalizing parsed base with
  | nil =>
    simp only [List.mapM_nil, Option.pure_def, Option.some.injEq] at hp
    subst hp
    exact ⟨base, rfl, by simp, fun k _ => rfl⟩
  | cons p rest ih =>
    obtain ⟨sid, dn⟩ := p
    rw [List.mapM_cons] at hp
    cases hsid : pyInt sid with
    | none => rw [hsid] at hp; simp at hp
    | some n =>
      rw [hsid] at hp
      cases hrest : rest.mapM (fun p => (pyInt p.1).map (fun n => (n, p.2))) with
      | none => rw [hrest] at hp; simp at hp
      | some parsed2 =>
        rw [hrest] at hp
        simp at hp
        subst hp
        simp only [List.map_cons, List.nodup_cons] at hnd
        obtain ⟨hn_notin, hnd2⟩ := hnd
        obtain ⟨m, hm, hmem, hpres⟩ := ih parsed2 (aset base n dn) hrest hnd2
        refine ⟨m, ?_, ?_, ?_⟩
        · rw [List.foldlM_cons, hsid]
          simpa using hm
        · intro k v hkv
          rcases List.mem_cons.mp hkv with heq | htail
          · obtain ⟨hk, hv⟩ := Prod.mk.injEq .. ▸ heq
            subst hk; subst hv
            rw [hpres k hn_notin, alookup_aset_self]
          · exact hmem k v htail
        · intro k hk
          simp only [List.map_cons, List.mem_cons, not_or] at hk
          obtain ⟨hk1, hk2⟩ := hk
          rw [hpres k hk2, alookup_aset_ne _ _ _ _ (fun h => hk1 h.symm)]

/-- C5: the stat-ID resolver starts from the hard-coded static table for
the sport code — a distinct table per sport, empty for unknown codes — and
overlays the league settings stat categories, with league-provided display
names winning on ID collision and untouched IDs keeping their static
names; the static MLB table itself maps stat ID 12 to `'HR'`. -/
theorem stats_id_map_overlay (game_code : String) (cats : List (String × String))
    (parsed : List (Int × String))
    (hp : cats.mapM (fun p => (pyInt p.1).map (fun n => (n, p.2))) = some parsed)
    (hnd : (parsed.map Prod.fst).Nodup) :
    ∃ m, cache_stats_id_map game_code cats = some m ∧
      (∀ k v, (k, v) ∈ parsed → alookup m k = some v) ∧
      (∀ k, k ∉ parsed.map Prod.fst →
        alookup m k = alookup (get_static_id_map game_code) k) ∧
      (game_code ≠ "mlb" → game_code ≠ "nhl" → get_static_id_map game_code = []) ∧
      alookup (get_static_id_map "mlb") 12 = some "HR" := by
  obtain ⟨m, hm, hmem, hpres⟩ :=
    overlay_foldl_spec cats parsed (get_static_id_map game_code) hp hnd
  refine ⟨m, hm, hmem, hpres, ?_, by decide⟩
  intro h1 h2
  simp [get_static_id_map, h1, h2]

/-- Witness for C5: in an MLB league whose settings rename stat 12 to
`HomeRuns`, the resolver maps 12 to the league name while the static table
said `HR`. -/
theorem stats_id_map_overlay_witness :
    ∃ m, cache_stats_id_map "mlb" [("12", "HomeRuns")] = some m ∧
      (∀ k v, (k, v) ∈ ([(12, "HomeRuns")] : List (Int × String)) →
        alookup m k = some v) ∧
      (∀ k, k ∉ ([(12, "HomeRuns")] : List (Int × String)).map Prod.fst →
        alookup m k = alookup (get_static_id_map "mlb") k) ∧
      (("mlb" : String) ≠ "mlb" → ("mlb" : String) ≠ "nhl" →
        get_static_id_map "mlb" = []) ∧
      alookup (get_static_id_map "mlb") 12 = some "HR" :=
  stats_id_map_overlay "mlb" [("12", "HomeRuns")] [(12, "HomeRuns")]
    (by decide) (by decide)

/-! ## `League.percent_owned` (league.py lines 469-496)

The extracted `(player_id, full, value)` fragments are consumed three at a
time; a `StopIteration` after one or two `next()` calls abandons the
partial record, but the key lookups and `int(...)` conversion already
performed on the leftover fragments can still raise. -/

/-- Embedding of the fragment-consuming loop of `League.percent_owned`. -/
def percent_owned_fold : List PyDict → Option (List PyDict)
  | a :: b :: c :: rest => do
    let pidv ← alookup a "player_id"
    let pid ← pyIntOfVal pidv
    let namev ← alookup b "full"
    let val ← alookup c "value"
    let tail ← percent_owned_fold rest
    return [("player_id", Val.i pid), ("name", namev), ("percent_owned", val)] :: tail
  | [a, b] => do
    let pidv ← alookup a "player_id"
    let _ ← pyIntOfVal pidv
    let _ ← alookup b "full"
    some []
  | [a] => do
    let pidv ← alookup a "player_id"
    let _ ← pyIntOfVal pidv
    some []
  | [] => some []

/-- Embedding of `League.percent_owned` given the extracted fragment
sequence of a response. -/
def percent_owned (frags : List PyDict) : Option (List PyDict) :=
  percent_owned_fold frags

/-! ## `Player._fetch_plyr_stats` (player.py lines 154-192) -/

/-- `float(v)` with `ValueError` caught: a parseable string becomes a
float, an unparseable string is kept as-is, an int converts, and a
list/dict raises an uncaught `TypeError` (`none`). -/
def py_float_or_keep : Val → Option Val
  | .s x => if pyFloatParseable x then some (.f x) else some (.s x)
  | .i n => some (.f (toString n))
  | .f x => some (.f x)
  | _ => none

/-- Embedding of the fragment loop of `Player._fetch_plyr_stats`: a
`player_id` fragment flushes the current row and starts a new one; `full`
and `position_type` fragments extend the current row (a `TypeError` on a
missing row is `none`); a `stat` fragment resolves the stat ID through the
given stats-ID map and stores the float-or-string value under the resolved
display name. -/
def fetch_plyr_stats_fold (m : List (Int × String)) :
    List PyDict → Option PyDict → List PyDict → Option (List PyDict)
  | [], row, stats =>
    some (stats ++ (match row with | some r => [r] | none => []))
  | e :: rest, row, stats =>
    match alookup e "player_id" with
    | some pv =>
      match pyIntOfVal pv with
      | none => none
      | some pid =>
        fetch_plyr_stats_fold m rest (some [("player_id", Val.i pid)])
          (stats ++ (match row with | some r => [r] | none => []))
    | none =>
      match alookup e "full" with
      | some fv =>
        match row with
        | none => none
        | some r => fetch_plyr_stats_fold m rest (some (aset r "name" fv)) stats
      | none =>
        match alookup e "position_type" with
        | some ptv =>
          match row with
          | none => none
          | some r =>
            fetch_plyr_stats_fold m rest (some (aset r "position_type" ptv)) stats
        | none =>
          match alookup e "stat" with
          | some (Val.d sd) =>
            (do
              let sidv ← alookup sd "stat_id"
              let sid ← pyIntOfVal sidv
              let vv ← alookup sd "value"
              let val ← py_float_or_keep vv
              match alookup m sid with
              | some nm =>
                match row with
                | none => none
                | some r => fetch_plyr_stats_fold m rest (some (aset r nm val)) stats
              | none => fetch_plyr_stats_fold m rest row stats)
          | some _ => none
          | none => fetch_plyr_stats_fold m rest row stats

/-- Embedding of `Player._fetch_plyr_stats` given the extracted fragment
sequence of one batch response. -/
def fetch_plyr_stats (m : List (Int × String)) (frags : List PyDict) :
    Option (List PyDict) :=
  fetch_plyr_stats_fold m frags none []

/-! ## `League.draft_results` (league.py lines 567-610) -/

/-- The trailing run of decimal digits of a character list. -/
def trailingDigits (cs : List Char) : List Char :=
  (cs.reverse.takeWhile Char.isDigit).reverse

/-- Embedding of `pat.search(pk)` for `pat = re.compile(r'.*\.p\.([0-9]+)$')`
together with `int(m.group(1))`: the string must end in a nonempty digit
run immediately preceded by `".p."`; the captured group is that digit
run. -/
def matchTrailingPid (s : String) : Option Int :=
  if (trailingDigits s.toList).isEmpty then none
  else
    match (s.toList.take
        (s.toList.length - (trailingDigits s.toList).length)).reverse with
    | '.' :: 'p' :: '.' :: _ => some (natOfDigits (trailingDigits s.toList))
    | _ => none

/-- Per-entry body of the `draft_results` loop: a matching `player_key`
is replaced by the integer `player_id`; a non-matching entry is appended
unchanged.  A missing or non-string `player_key` raises (`none`). -/
def process_draft_entry (p : PyDict) : Option PyDict :=
  match alookup p "player_key" with
  | some (Val.s pk) =>
    match matchTrailingPid pk with
    | some pid => some (adel (aset p "player_id" (Val.i pid)) "player_key")
    | none => some p
  | _ => none

/-- Embedding of `League.draft_results` given the extracted
`draft_result` entries. -/
def draft_results (entries : List PyDict) : Option (List PyDict) :=
  entries.mapM process_draft_entry

theorem mapM_get_eq {γ : Type} (g : γ → Option γ) (l res : List γ)
    (h : l.mapM g = some res) :
    res.length = l.length ∧
      ∀ i, ∀ hi : i < l.length, ∀ hi2 : i < res.length,
        g (l.get ⟨i, hi⟩) = some (res.get ⟨i, hi2⟩) := by
  induction l generalizing res with
  | nil =>
    simp only [List.mapM_nil, Option.pure_def, Option.some.injEq] at h
    subst h
    exact ⟨rfl, by simp⟩
  | cons x xs ih =>
    rw [List.mapM_cons] at h
    cases hx : g x with
    | none => rw [hx] at h; simp at h
    | some y =>
      rw [hx] at h
      cases hxs : xs.mapM g with
      | none => rw [hxs] at h; simp at h
      | some ys =>
        rw [hxs] at h
        simp at h
        subst h
        obtain ⟨hlen, hidx⟩ := ih ys hxs
        refine ⟨by simp [hlen], ?_⟩
        intro i hi hi2
        cases i with
        | zero => simpa using hx
        | succ n =>
          simpa using hidx n (by simpa using Nat.lt_of_succ_lt_succ hi)
            (by simpa using Nat.lt_of_succ_lt_succ hi2)

theorem mapM_mem_exists {γ δ : Type} (f : γ → Option δ) (l : List γ)
    (res : List δ) (h : l.mapM f = some res) :
    ∀ r ∈ res, ∃ x ∈ l, f x = some r := by
  induction l generalizing res with
  | nil =>
    simp only [List.mapM_nil, Option.pure_def, Option.some.injEq] at h
    subst h
    simp
  | cons x xs ih =>
    rw [List.mapM_cons] at h
    cases hx : f x with
    | none => rw [hx] at h; simp at h
    | some y =>
      rw [hx] at h
      cases hxs : xs.mapM f with
      | none => rw [hxs] at h; simp at h
      | some ys =>
        rw [hxs] at h
        simp at h
        subst h
        intro r hr
        rcases List.mem_cons.mp hr with heq | htail
        · exact ⟨x, List.mem_cons_self x xs, heq ▸ hx⟩
        · obtain ⟨z, hz, hfz⟩ := ih ys hxs r htail
          exact ⟨z, List.mem_cons_of_mem x hz, hfz⟩

theorem takeWhile_append_digits (xs ys : List Char) (hxs : xs.all Char.isDigit)
    (hy : ∀ y rest, ys = y :: rest → Char.isDigit y = false) :
    (xs ++ ys).takeWhile Char.isDigit = xs := by
  induction xs with
  | nil =>
    cases ys with
    | nil => rfl
    | cons y rest => simp [List.takeWhile, hy y rest rfl]
  | cons x xs ih =>
    simp only [List.all_cons, Bool.and_eq_true] at hxs
    simp [List.takeWhile, hxs.1, ih hxs.2]

theorem trailingDigits_form (g ds : List Char) (hd : ds.all Char.isDigit) :
    trailingDigits (g ++ '.' :: 'p' :: '.' :: ds) = ds := by
  unfold trailingDigits
  have h1 : (g ++ '.' :: 'p' :: '.' :: ds).reverse
      = ds.reverse ++ ('.' :: 'p' :: '.' :: g.reverse) := by
    simp
  rw [h1, takeWhile_append_digits _ _ (by simpa using hd) (by intro y rest h; cases h; rfl)]
  simp

theorem matchTrailingPid_form (g ds : List Char) (hne : ds ≠ [])
    (hd : ds.all Char.isDigit) :
    matchTrailingPid (String.mk (g ++ '.' :: 'p' :: '.' :: ds))
      = some ((natOfDigits ds : Int)) := by
  have hcs : (String.mk (g ++ '.' :: 'p' :: '.' :: ds)).toList
      = g ++ '.' :: 'p' :: '.' :: ds := rfl
  have hpre : ((g ++ '.' :: 'p' :: '.' :: ds).take
      ((g ++ '.' :: 'p' :: '.' :: ds).length - ds.length)).reverse
      = '.' :: 'p' :: '.' :: g.reverse := by
    have hre : g ++ '.' :: 'p' :: '.' :: ds = (g ++ ['.', 'p', '.']) ++ ds := by simp
    have hlen : (g ++ '.' :: 'p' :: '.' :: ds).length - ds.length
        = (g ++ ['.', 'p', '.']).length := by
      simp
      omega
    rw [hlen, hre, List.take_left]
    simp
  have hempty : ¬(ds.isEmpty = true) := by
    cases ds with
    | nil => exact absurd rfl hne
    | cons a l => simp [List.isEmpty]
  rw [matchTrailingPid, hcs, trailingDigits_form g ds hd, if_neg hempty, hpre]
  rfl

/-- C8: every draft-result entry whose `player_key` has the form
`<game>.p.<digits>` comes back with an integer `player_id` equal to the
trailing digit run and with the `player_key` field removed. -/
theorem draft_results_key_to_id (entries res : List PyDict)
    (h : draft_results entries = some res) (i : Nat) (hi : i < entries.length)
    (g ds : List Char)
    (hkey : alookup (entries.get ⟨i, hi⟩) "player_key"
      = some (Val.s (String.mk (g ++ '.' :: 'p' :: '.' :: ds))))
    (hne : ds ≠ []) (hd : ds.all Char.isDigit) :
    ∃ hi2 : i < res.length,
      alookup (res.get ⟨i, hi2⟩) "player_id" = some (Val.i (natOfDigits ds)) ∧
      alookup (res.get ⟨i, hi2⟩) "player_key" = none := by
  obtain ⟨hlen, hidx⟩ := mapM_get_eq process_draft_entry entries res h
  have hi2 : i < res.length := hlen ▸ hi
  refine ⟨hi2, ?_⟩
  have hproc := hidx i hi hi2
  rw [process_draft_entry, hkey] at hproc
  dsimp only at hproc
  rw [matchTrailingPid_form g ds hne hd] at hproc
  dsimp only at hproc
  have hres : res.get ⟨i, hi2⟩
      = adel (aset (entries.get ⟨i, hi⟩) "player_id"
          (Val.i (natOfDigits ds))) "player_key" := by
    exact (Option.some.inj hproc).symm
  rw [hres]
  constructor
  · rw [alookup_adel_ne _ _ _ (by decide), alookup_aset_self]
  · exact alookup_adel_self _ _

/-- A concrete drafted entry with `player_key` `"400.p.9490"`. -/
def c8_entry : PyDict :=
  [("pick", Val.i 1), ("round", Val.i 1), ("cost", Val.s "4"),
   ("team_key", Val.s "388.l.27081.t.4"), ("player_key", Val.s "400.p.9490")]

/-- The draft results computed from the single concrete entry. -/
def c8_res : List PyDict := (draft_results [c8_entry]).getD []

/-- Witness for C8: `"400.p.9490"` yields `player_id = 9490` and no
`player_key`. -/
theorem draft_results_key_to_id_witness :
    ∃ hi2 : 0 < c8_res.length,
      alookup (c8_res.get ⟨0, hi2⟩) "player_id" = some (Val.i (natOfDigits ['9', '4', '9', '0'])) ∧
      alookup (c8_res.get ⟨0, hi2⟩) "player_key" = none :=
  draft_results_key_to_id [c8_entry] c8_res rfl 0 (by decide)
    ['4', '0', '0'] ['9', '4', '9', '0'] rfl (by decide) (by decide)

/-- C10: a draft-result entry whose `player_key` does not match the
trailing `.p.<digits>` pattern is included in the result unchanged: it
keeps its `player_key` and gains no `player_id`. -/
theorem draft_results_nonmatching_unchanged (entries res : List PyDict)
    (h : draft_results entries = some res) (i : Nat) (hi : i < entries.length)
    (pk : String)
    (hkey : alookup (entries.get ⟨i, hi⟩) "player_key" = some (Val.s pk))
    (hnm : matchTrailingPid pk = none) :
    ∃ hi2 : i < res.length,
      res.get ⟨i, hi2⟩ = entries.get ⟨i, hi⟩ ∧
      alookup (res.get ⟨i, hi2⟩) "player_key" = some (Val.s pk) ∧
      alookup (res.get ⟨i, hi2⟩) "player_id"
        = alookup (entries.get ⟨i, hi⟩) "player_id" := by
  obtain ⟨hlen, hidx⟩ := mapM_get_eq process_draft_entry entries res h
  have hi2 : i < res.length := hlen ▸ hi
  have hproc := hidx i hi hi2
  rw [process_draft_entry, hkey] at hproc
  dsimp only at hproc
  rw [hnm] at hproc
  dsimp only at hproc
  have hres : res.get ⟨i, hi2⟩ = entries.get ⟨i, hi⟩ := (Option.some.inj hproc).symm
  exact ⟨hi2, hres, hres ▸ hkey, hres ▸ rfl⟩

/-- A concrete draft entry whose key does not match the pattern. -/
def c10_entry : PyDict :=
  [("pick", Val.i 3), ("player_key", Val.s "400.t.9")]

/-- The draft results computed from the single non-matching entry. -/
def c10_res : List PyDict := (draft_results [c10_entry]).getD []

/-- Witness for C10: the non-matching entry survives unchanged. -/
theorem draft_results_nonmatching_unchanged_witness :
    ∃ hi2 : 0 < c10_res.length,
      c10_res.get ⟨0, hi2⟩ = ([c10_entry] : List PyDict).get ⟨0, by decide⟩ ∧
      alookup (c10_res.get ⟨0, hi2⟩) "player_key" = some (Val.s "400.t.9") ∧
      alookup (c10_res.get ⟨0, hi2⟩) "player_id"
        = alookup (([c10_entry] : List PyDict).get ⟨0, by decide⟩) "player_id" :=
  draft_results_nonmatching_unchanged [c10_entry] c10_res rfl 0 (by decide)
    "400.t.9" rfl (by decide)

theorem extract_players_eq_filter (pairs : List (List PyDict × Val))
    (recs : List PyDict) (h : extract_players pairs = some recs) :
    ∃ processed : List PyDict,
      pairs.mapM (fun q => player_from_frags q.1 q.2) = some processed ∧
      processed.length = pairs.length ∧
      recs = processed.filter (fun r => !isNAStatus (alookup r "status")) := by
  induction pairs generalizing recs with
  | nil =>
    simp only [extract_players, Option.some.injEq] at h
    subst h
    exact ⟨[], rfl, rfl, rfl⟩
  | cons q rest ih =>
    obtain ⟨frags, po⟩ := q
    simp only [extract_players] at h
    cases hpf : player_from_frags frags po with
    | none => rw [hpf] at h; simp at h
    | some plyr =>
      rw [hpf] at h
      cases hrest : extract_players rest with
      | none => rw [hrest] at h; simp at h
      | some tail =>
        rw [hrest] at h
        obtain ⟨processed, hproc, hplen, htail⟩ := ih tail hrest
        refine ⟨plyr :: processed, ?_, by simp [hplen], ?_⟩
        · rw [List.mapM_cons, hpf, hproc]
          rfl
        · simp only [Option.bind_eq_bind', Option.some_bind', Option.pure_def] at h
          by_cases hna : isNAStatus (alookup plyr "status")
          · rw [if_pos hna] at h
            have : recs = tail := by
              simpa using h.symm
            rw [this, htail, List.filter_cons, if_neg (by simp [hna])]
          · rw [if_neg hna] at h
            have : recs = plyr :: tail := by
              simpa using h.symm
            rw [this, htail, List.filter_cons,
              if_pos (by simp [hna])]

/-- C9: in every successfully parsed page, the reported per-page count
covers every normalized player — NA-status players included — while the
returned records are exactly the normalized players whose status is not
`"NA"`; hence no returned record has status `"NA"` and the record list can
be shorter than the count that advances the offset. -/
theorem players_from_page_na_filter (pg : Page) (num : Nat) (recs : List PyDict)
    (h : players_from_page pg = some (num, recs)) :
    ∃ processed : List PyDict,
      processed.length = num ∧
      recs = processed.filter (fun r => !isNAStatus (alookup r "status")) ∧
      recs.length ≤ num ∧
      ∀ r ∈ recs, isNAStatus (alookup r "status") = false := by
  cases pg with
  | none =>
    simp only [players_from_page, Option.some.injEq, Prod.mk.injEq] at h
    obtain ⟨h1, h2⟩ := h
    subst h1; subst h2
    exact ⟨[], rfl, rfl, le_refl 0, by simp⟩
  | some pd =>
    simp only [players_from_page] at h
    cases hpo : pct_owned_from_page pd.pcts [] with
    | none => rw [hpo] at h; simp at h
    | some po =>
      rw [hpo] at h
      simp only [Option.bind_eq_bind', Option.some_bind', Option.pure_def] at h
      by_cases hz : min pd.count po.length = 0
      · rw [if_pos hz] at h
        simp at h
      · rw [if_neg hz] at h
        cases hex : extract_players ((List.range (min pd.count po.length)).map
            (fun k => (pd.players.getD k [], po.getD k (Val.i 0)))) with
        | none => rw [hex] at h; simp at h
        | some fa =>
          rw [hex] at h
          simp only [Option.bind_eq_bind', Option.some_bind', Option.some.injEq,
            Prod.mk.injEq] at h
          obtain ⟨h1, h2⟩ := h
          subst h2
          obtain ⟨processed, hproc, hplen, hfa⟩ := extract_players_eq_filter _ _ hex
          refine ⟨processed, ?_, hfa, ?_, ?_⟩
          · rw [hplen]
            simpa using h1
          · rw [hfa]
            have := List.length_filter_le (fun r => !isNAStatus (alookup r "status"))
              processed
            rw [hplen] at this
            simpa [h1] using this
          · intro r hr
            rw [hfa] at hr
            have := List.of_mem_filter hr
            simpa using this

/-- A wire player that additionally carries status `"NA"`. -/
def c9_raw_na : List PyDict := mk_raw_player 7 ++ [[("status", Val.s "NA")]]

/-- A page reporting two players, the first of which has status `"NA"`. -/
def c9_page : Page := some ⟨2, [c9_raw_na, mk_raw_player 8], mk_pcts 2⟩

/-- The parsed `(count, records)` of the concrete NA page. -/
def c9_out : Nat × List PyDict := (players_from_page c9_page).getD (0, [])

/-- Witness for C9: the NA page parses to count 2 with a single returned
record — the NA player is counted but not returned. -/
theorem players_from_page_na_filter_witness :
    (∃ processed : List PyDict,
      processed.length = c9_out.1 ∧
      c9_out.2 = processed.filter (fun r => !isNAStatus (alookup r "status")) ∧
      c9_out.2.length ≤ c9_out.1 ∧
      ∀ r ∈ c9_out.2, isNAStatus (alookup r "status") = false) ∧
    c9_out.1 = 2 ∧ c9_out.2.length = 1 :=
  ⟨players_from_page_na_filter c9_page c9_out.1 c9_out.2 rfl, rfl, rfl⟩

theorem player_from_frags_player_id (frags : List PyDict) (po : Val) (plyr : PyDict)
    (h : player_from_frags frags po = some plyr) :
    ∃ n, alookup plyr "player_id" = some (Val.i n) := by
  unfold player_from_frags at h
  simp only [Option.bind_eq_bind'] at h
  rw [Option.bind_eq_some] at h
  obtain ⟨pidv, hpidv, h⟩ := h
  rw [Option.bind_eq_some] at h
  obtain ⟨pid, hpid, h⟩ := h
  rw [Option.bind_eq_some] at h
  obtain ⟨namev, hnamev, h⟩ := h
  cases namev with
  | d nd =>
    rw [Option.bind_eq_some] at h
    obtain ⟨full, hfull, h⟩ := h
    rw [Option.bind_eq_some] at h
    obtain ⟨epv, hepv, h⟩ := h
    cases epv with
    | l xs =>
      rw [Option.bind_eq_some] at h
      obtain ⟨eps, heps, h⟩ := h
      refine ⟨pid, ?_⟩
      rw [Option.pure_def] at h
      rw [← Option.some.inj h]
      split
      · rw [alookup_aset_ne _ _ _ _ (by decide), alookup_aset_ne _ _ _ _ (by decide),
          alookup_aset_ne _ _ _ _ (by decide), alookup_aset_self]
      · rw [alookup_aset_ne _ _ _ _ (by decide), alookup_aset_ne _ _ _ _ (by decide),
          alookup_aset_ne _ _ _ _ (by decide), alookup_aset_ne _ _ _ _ (by decide),
          alookup_aset_self]
    | s x => simp at h
    | i n => simp at h
    | f x => simp at h
    | d ds => simp at h
  | s x => simp at h
  | i n => simp at h
  | f x => simp at h
  | l xs => simp at h

theorem extract_players_mem_src (pairs : List (List PyDict × Val))
    (recs : List PyDict) (h : extract_players pairs = some recs) :
    ∀ r ∈ recs, ∃ q ∈ pairs, player_from_frags q.1 q.2 = some r := by
  intro r hr
  obtain ⟨processed, hproc, _, hfil⟩ := extract_players_eq_filter pairs recs h
  have hrp : r ∈ processed := List.mem_of_mem_filter (hfil ▸ hr)
  exact mapM_mem_exists _ pairs processed hproc r hrp

theorem players_from_page_player_id (pg : Page) (num : Nat) (recs : List PyDict)
    (h : players_from_page pg = some (num, recs)) :
    ∀ r ∈ recs, ∃ n, alookup r "player_id" = some (Val.i n) := by
  intro r hr
  cases pg with
  | none =>
    simp only [players_from_page, Option.some.injEq, Prod.mk.injEq] at h
    rw [← h.2] at hr
    simp at hr
  | some pd =>
    simp only [players_from_page] at h
    cases hpo : pct_owned_from_page pd.pcts [] with
    | none => rw [hpo] at h; simp at h
    | some po =>
      rw [hpo] at h
      simp only [Option.bind_eq_bind', Option.some_bind'] at h
      by_cases hz : min pd.count po.length = 0
      · rw [if_pos hz] at h
        simp at h
      · rw [if_neg hz] at h
        cases hex : extract_players ((List.range (min pd.count po.length)).map
            (fun k => (pd.players.getD k [], po.getD k (Val.i 0)))) with
        | none => rw [hex] at h; simp at h
        | some fa =>
          rw [hex] at h
          simp only [Option.bind_eq_bind', Option.some_bind', Option.pure_def,
            Option.some.injEq, Prod.mk.injEq] at h
          have hfa : recs = fa := h.2.symm
          subst hfa
          obtain ⟨q, _, hq⟩ := extract_players_mem_src _ _ hex r hr
          exact player_from_frags_player_id q.1 q.2 r hq

theorem percent_owned_fold_player_id :
    ∀ (frags res : List PyDict), percent_owned_fold frags = some res →
      ∀ r ∈ res, ∃ n, alookup r "player_id" = some (Val.i n)
  | [], res, h, r, hr => by
    simp only [percent_owned_fold, Option.some.injEq] at h
    subst h
    simp at hr
  | [a], res, h, r, hr => by
    simp only [percent_owned_fold, Option.bind_eq_bind'] at h
    rw [Option.bind_eq_some] at h
    obtain ⟨pidv, _, h⟩ := h
    rw [Option.bind_eq_some] at h
    obtain ⟨pid, _, h⟩ := h
    rw [← Option.some.inj h] at hr
    simp at hr
  | [a, b], res, h, r, hr => by
    simp only [percent_owned_fold, Option.bind_eq_bind'] at h
    rw [Option.bind_eq_some] at h
    obtain ⟨pidv, _, h⟩ := h
    rw [Option.bind_eq_some] at h
    obtain ⟨pid, _, h⟩ := h
    rw [Option.bind_eq_some] at h
    obtain ⟨namev, _, h⟩ := h
    rw [← Option.some.inj h] at hr
    simp at hr
  | a :: b :: c :: rest, res, h, r, hr => by
    simp only [percent_owned_fold, Option.bind_eq_bind'] at h
    rw [Option.bind_eq_some] at h
    obtain ⟨pidv, _, h⟩ := h
    rw [Option.bind_eq_some] at h
    obtain ⟨pid, _, h⟩ := h
    rw [Option.bind_eq_some] at h
    obtain ⟨namev, _, h⟩ := h
    rw [Option.bind_eq_some] at h
    obtain ⟨val, _, h⟩ := h
    rw [Option.bind_eq_some] at h
    obtain ⟨tail, htail, h⟩ := h
    rw [← Option.some.inj h] at hr
    rcases List.mem_cons.mp hr with heq | hmem
    · subst heq
      exact ⟨pid, rfl⟩
    · exact percent_owned_fold_player_id rest tail htail r hmem

theorem alookup_mem {α β : Type} [DecidableEq α] (l : List (α × β)) (k : α) (v : β)
    (h : alookup l k = some v) : (k, v) ∈ l := by
  induction l with
  | nil => simp at h
  | cons p rest ih =>
    obtain ⟨pk, pv⟩ := p
    rw [alookup_cons] at h
    by_cases hpk : pk = k
    · rw [if_pos hpk] at h
      subst hpk
      rw [← Option.some.inj h]
      exact List.mem_cons_self _ _
    · rw [if_neg hpk] at h
      exact List.mem_cons_of_mem _ (ih h)

theorem fetch_plyr_stats_fold_player_id (m : List (Int × String))
    (hm : ∀ q ∈ m, q.2 ≠ "player_id") (frags : List PyDict) :
    ∀ (row : Option PyDict) (stats rows : List PyDict),
      (∀ r ∈ stats, ∃ n, alookup r "player_id" = some (Val.i n)) →
      (∀ r, row = some r → ∃ n, alookup r "player_id" = some (Val.i n)) →
      fetch_plyr_stats_fold m frags row stats = some rows →
      ∀ r ∈ rows, ∃ n, alookup r "player_id" = some (Val.i n) := by
  induction frags with
  | nil =>
    intro row stats rows hstats hrow h r hr
    simp only [fetch_plyr_stats_fold, Option.some.injEq] at h
    rw [← h] at hr
    rcases List.mem_append.mp hr with hs | hf
    · exact hstats r hs
    · cases row with
      | none => simp at hf
      | some r0 =>
        have : r = r0 := by simpa using hf
        exact this ▸ hrow r0 rfl
  | cons e rest ih =>
    intro row stats rows hstats hrow h r hr
    simp only [fetch_plyr_stats_fold] at h
    cases hpid : alookup e "player_id" with
    | some pv =>
      rw [hpid] at h
      try dsimp only at h
      cases hconv : pyIntOfVal pv with
      | none => rw [hconv] at h; simp at h
      | some pid =>
        rw [hconv] at h
        try dsimp only at h
        refine ih (some [("player_id", Val.i pid)]) _ rows ?_ ?_ h r hr
        · intro r2 hr2
          rcases List.mem_append.mp hr2 with hs | hf
          · exact hstats r2 hs
          · cases row with
            | none => simp at hf
            | some r0 =>
              have : r2 = r0 := by simpa using hf
              exact this ▸ hrow r0 rfl
        · intro r2 hr2
          refine ⟨pid, ?_⟩
          rw [← Option.some.inj hr2]
          rfl
    | none =>
      rw [hpid] at h
      try dsimp only at h
      cases hfull : alookup e "full" with
      | some fv =>
        rw [hfull] at h
        try dsimp only at h
        cases row with
        | none => simp at h
        | some r0 =>
          refine ih (some (aset r0 "name" fv)) stats rows hstats ?_ h r hr
          intro r2 hr2
          obtain ⟨n, hn⟩ := hrow r0 rfl
          refine ⟨n, ?_⟩
          rw [← Option.some.inj hr2, alookup_aset_ne _ _ _ _ (by decide)]
          exact hn
      | none =>
        rw [hfull] at h
        try dsimp only at h
        cases hpt : alookup e "position_type" with
        | some ptv =>
          rw [hpt] at h
          try dsimp only at h
          cases row with
          | none => simp at h
          | some r0 =>
            refine ih (some (aset r0 "position_type" ptv)) stats rows hstats ?_ h r hr
            intro r2 hr2
            obtain ⟨n, hn⟩ := hrow r0 rfl
            refine ⟨n, ?_⟩
            rw [← Option.some.inj hr2, alookup_aset_ne _ _ _ _ (by decide)]
            exact hn
        | none =>
          rw [hpt] at h
          try dsimp only at h
          cases hstat : alookup e "stat" with
          | none =>
            rw [hstat] at h
            try dsimp only at h
            exact ih row stats rows hstats hrow h r hr
          | some sv =>
            rw [hstat] at h
            try dsimp only at h
            cases sv with
            | d sd =>
              simp only [Option.bind_eq_bind'] at h
              rw [Option.bind_eq_some] at h
              obtain ⟨sidv, hsidv, h⟩ := h
              rw [Option.bind_eq_some] at h
              obtain ⟨sid, hsid, h⟩ := h
              rw [Option.bind_eq_some] at h
              obtain ⟨vv, hvv, h⟩ := h
              rw [Option.bind_eq_some] at h
              obtain ⟨val, hval, h⟩ := h
              cases hnm : alookup m sid with
              | none =>
                rw [hnm] at h
                try dsimp only at h
                exact ih row stats rows hstats hrow h r hr
              | some nm =>
                rw [hnm] at h
                try dsimp only at h
                cases row with
                | none => simp at h
                | some r0 =>
                  refine ih (some (aset r0 nm val)) stats rows hstats ?_ h r hr
                  intro r2 hr2
                  obtain ⟨n, hn⟩ := hrow r0 rfl
                  have hnmne : nm ≠ "player_id" :=
                    hm (sid, nm) (alookup_mem m sid nm hnm)
                  refine ⟨n, ?_⟩
                  rw [← Option.some.inj hr2, alookup_aset_ne _ _ _ _ hnmne]
                  exact hn
            | s x => simp at h
            | i n => simp at h
            | f x => simp at h
            | l xs => simp at h

/-- A raw player detail as the wire delivers it (ids as strings). -/
def c6_raw : RawDetail :=
  [Category.list [[("player_key", Val.s "396.p.3983")],
                  [("player_id", Val.s "3983")]],
   Category.dict [("uniform_number", Val.s "81")]]

/-- C6, counterexample: a `player_details` record keeps `player_id` as the
wire *string* — `_parse_player_detail` copies the field without the
`int(...)` coercion the other extraction paths apply, as the
`player_details` docstring itself shows (`'player_id': '3983'`). -/
theorem player_detail_id_string_cex :
    (player_details_by_search (fun _ => [c6_raw]) [] "Phil").1
      = [[("player_key", Val.s "396.p.3983"), ("player_id", Val.s "3983"),
          ("uniform_number", Val.s "81")]] ∧
    alookup (parse_player_detail c6_raw) "player_id" = some (Val.s "3983") ∧
    Val.isInt (Val.s "3983") = false :=
  ⟨rfl, rfl, rfl⟩

/-- C6 (amended): the extraction paths of the league API — paginated
player fetches, `percent_owned`, player stat rows, and draft results —
coerce `player_id` to an integer even though the wire emits it as a
string (for stat rows, provided no stat display name collides with the
literal field name `player_id`; for draft results, wherever a `player_id`
field is produced at all); `player_details` records are the exception and
keep the wire string (see the counterexample). -/
theorem player_id_integer_paths :
    (∀ (pg : Page) (num : Nat) (recs : List PyDict),
      players_from_page pg = some (num, recs) →
      ∀ r ∈ recs, ∃ n, alookup r "player_id" = some (Val.i n)) ∧
    (∀ frags res, percent_owned frags = some res →
      ∀ r ∈ res, ∃ n, alookup r "player_id" = some (Val.i n)) ∧
    (∀ (m : List (Int × String)) (frags rows : List PyDict),
      (∀ q ∈ m, q.2 ≠ "player_id") →
      fetch_plyr_stats m frags = some rows →
      ∀ r ∈ rows, ∃ n, alookup r "player_id" = some (Val.i n)) ∧
    (∀ entries res, draft_results entries = some res →
      (∀ p ∈ entries, alookup p "player_id" = none) →
      ∀ r ∈ res, ∀ v, alookup r "player_id" = some v → ∃ n, v = Val.i n) := by
  refine ⟨players_from_page_player_id, percent_owned_fold_player_id, ?_, ?_⟩
  · intro m frags rows hm h r hr
    exact fetch_plyr_stats_fold_player_id m hm frags none [] rows
      (by simp) (by simp) h r hr
  · intro entries res h hnone r hr v hv
    obtain ⟨x, hx, hproc⟩ := mapM_mem_exists process_draft_entry entries res h r hr
    rw [process_draft_entry] at hproc
    cases hkey : alookup x "player_key" with
    | none => rw [hkey] at hproc; simp at hproc
    | some kv =>
      rw [hkey] at hproc
      cases kv with
      | s pk =>
        dsimp only at hproc
        cases hmt : matchTrailingPid pk with
        | some pid =>
          rw [hmt] at hproc
          dsimp only at hproc
          rw [← Option.some.inj hproc] at hv
          rw [alookup_adel_ne _ _ _ (by decide), alookup_aset_self] at hv
          exact ⟨pid, (Option.some.inj hv).symm⟩
        | none =>
          rw [hmt] at hproc
          dsimp only at hproc
          rw [← Option.some.inj hproc] at hv
          rw [hnone x hx] at hv
          simp at hv
      | i n => simp at hproc
      | f y => simp at hproc
      | l xs => simp at hproc
      | d ds => simp at hproc

/-- The parse of a concrete one-player page. -/
def c6w_parse : Nat × List PyDict := (players_from_page (mk_page 1 0)).getD (0, [])

/-- The single record of that page. -/
def c6w_rec : PyDict := c6w_parse.2.getD 0 []

/-- Witness for C6 (amended), on the paginated-fetch path: the record
built from the wire string `"0"` carries an integer `player_id`. -/
theorem player_id_integer_paths_witness :
    ∃ n, alookup c6w_rec "player_id" = some (Val.i n) :=
  player_id_integer_paths.1 (mk_page 1 0) c6w_parse.1 c6w_parse.2 rfl c6w_rec
    (by
      have hsing : c6w_parse.2 = [c6w_rec] := rfl
      rw [hsing]
      exact List.mem_singleton_self _)

theorem fetch_players_loop_log_mono (remote : Nat → Page) :
    ∀ (fuel idx : Nat) (acc : List PyDict) (log : List Nat) (l : List PyDict)
      (lg : List Nat),
      fetch_players_loop remote fuel idx acc log = some (l, lg) →
      log.length ≤ lg.length := by
  intro fuel
  induction fuel with
  | zero => intro idx acc log l lg h; simp [fetch_players_loop] at h
  | succ f ih =>
    intro idx acc log l lg h
    rw [fetch_players_loop] at h
    by_cases hmod : idx % 25 = 0
    · rw [if_pos hmod] at h
      cases hpg : players_from_page (remote idx) with
      | none => rw [hpg] at h; simp at h
      | some pr =>
        rw [hpg] at h
        obtain ⟨num, fa⟩ := pr
        dsimp only at h
        by_cases hfa : fa.length = 0
        · rw [if_pos hfa] at h
          have : log ++ [idx] = lg := (Prod.mk.injEq .. ▸ Option.some.inj h).2
          rw [← this]
          simp
        · rw [if_neg hfa] at h
          have := ih (idx + num) (acc ++ fa) (log ++ [idx]) l lg h
          simp at this
          omega
    · rw [if_neg hmod] at h
      have heq : log = lg := (Prod.mk.injEq .. ▸ Option.some.inj h).2
      rw [heq]

theorem fetch_players_log_ne_nil (remote : Nat → Page) (fuel : Nat)
    (l : List PyDict) (lg : List Nat)
    (h : fetch_players fuel remote = some (l, lg)) : lg.length ≠ 0 := by
  cases fuel with
  | zero => simp [fetch_players, fetch_players_loop] at h
  | succ f =>
    rw [fetch_players, fetch_players_loop] at h
    rw [if_pos rfl] at h
    cases hpg : players_from_page (remote 0) with
    | none => rw [hpg] at h; simp at h
    | some pr =>
      rw [hpg] at h
      obtain ⟨num, fa⟩ := pr
      dsimp only at h
      by_cases hfa : fa.length = 0
      · rw [if_pos hfa] at h
        have : ([] : List Nat) ++ [0] = lg := (Prod.mk.injEq .. ▸ Option.some.inj h).2
        rw [← this]
        simp
      · rw [if_neg hfa] at h
        have := fetch_players_loop_log_mono remote f (0 + num) ([] ++ fa)
          ([] ++ [0]) l lg h
        simp at this
        omega

/-- The remote service of an empty league: every page is the empty
`players` list. -/
def c7_empty_remote : Nat → Page := fun _ => none

/-- A fresh session state. -/
def c7_state0 : FAState := ⟨[], none, none⟩

/-- The state after `waivers` cached an empty result. -/
def c7_state1 : FAState := ⟨[], some [], none⟩

/-- C7, counterexample: `waivers` guards its cache with Python truthiness
(`if not self.waivers_cache:`), so after a fetch that resolved to zero
players the cached empty list does not count as a hit — the second
identical call issues one more remote call instead of none. -/
theorem waivers_empty_cache_refetch_cex :
    waivers c7_empty_remote 1 c7_state0 = some ([], c7_state1, 1) ∧
    waivers c7_empty_remote 1 c7_state1 = some ([], c7_state1, 1) :=
  ⟨rfl, rfl⟩

/-- C7 (amended): only the dict-keyed `free_agents` cache stores an empty
result so that a second identical call is answered without a remote call;
`waivers` and `taken_players` test their caches for truthiness, so a
cached empty list is refetched — the second identical call issues the same
positive number of remote calls again; an empty search-string result is
not cached at all, so the repeat search also calls out again; scalar
caches (current week) use the `None` sentinel and do answer their second
call without a remote call. -/
theorem empty_result_caching :
    (∀ (remote : String → Nat → Page) (fuel : Nat) (pos : String) (st : FAState)
      (log : List Nat),
      alookup st.free_agent_cache pos = none →
      fetch_players fuel (remote pos) = some ([], log) →
      ∃ st1, free_agents remote fuel pos st = some ([], st1, log.length) ∧
        free_agents remote fuel pos st1 = some ([], st1, 0)) ∧
    (∀ (remote : Nat → Page) (fuel : Nat) (st : FAState) (log : List Nat),
      st.waivers_cache = none →
      fetch_players fuel remote = some ([], log) →
      ∃ st1, waivers remote fuel st = some ([], st1, log.length) ∧
        waivers remote fuel st1 = some ([], st1, log.length) ∧ log.length ≠ 0) ∧
    (∀ (remote : Nat → Page) (fuel : Nat) (st : FAState) (log : List Nat),
      st.taken_players_cache = none →
      fetch_players fuel remote = some ([], log) →
      ∃ st1, taken_players remote fuel st = some ([], st1, log.length) ∧
        taken_players remote fuel st1 = some ([], st1, log.length) ∧
        log.length ≠ 0) ∧
    (∀ (remote : String → List RawDetail) (cache : List (String × List PyDict))
      (s : String),
      alookup cache s = none → remote s = [] →
      player_details_by_search remote cache s = ([], cache, 1)) ∧
    (∀ (r : WeekRemote) (st : LgWeekState),
      st.current_week_cache = none →
      current_week r st = (r.cw, ⟨some r.cw, st.week_date_range_cache⟩, 1) ∧
      current_week r ⟨some r.cw, st.week_date_range_cache⟩
        = (r.cw, ⟨some r.cw, st.week_date_range_cache⟩, 0)) := by
  refine ⟨?_, ?_, ?_, ?_, ?_⟩
  · intro remote fuel pos st log hmiss hf
    refine ⟨{ st with free_agent_cache := aset st.free_agent_cache pos [] }, ?_, ?_⟩
    · simp [free_agents, hmiss, hf]
    · simp [free_agents, alookup_aset_self]
  · intro remote fuel st log hmiss hf
    obtain ⟨fa, wv, tk⟩ := st
    simp only at hmiss
    subst hmiss
    refine ⟨⟨fa, some [], tk⟩, ?_, ?_, ?_⟩
    · simp [waivers, hf]
    · simp [waivers, hf]
    · exact fetch_players_log_ne_nil remote fuel [] log hf
  · intro remote fuel st log hmiss hf
    obtain ⟨fa, wv, tk⟩ := st
    simp only at hmiss
    subst hmiss
    refine ⟨⟨fa, wv, some []⟩, ?_, ?_, ?_⟩
    · simp [taken_players, hf]
    · simp [taken_players, hf]
    · exact fetch_players_log_ne_nil remote fuel [] log hf
  · intro remote cache s hmiss hempty
    simp [player_details_by_search, hmiss, hempty]
  · intro r st hmiss
    obtain ⟨cw, wdr⟩ := st
    simp only at hmiss
    subst hmiss
    exact ⟨rfl, rfl⟩

/-- Witness for C7 (amended) on the `waivers` branch: the empty result is
fetched, cached, and fetched again on the second call. -/
theorem empty_result_caching_witness :
    ∃ st1, waivers c7_empty_remote 1 c7_state0 = some ([], st1, 1) ∧
      waivers c7_empty_remote 1 st1 = some ([], st1, 1) ∧ (1 : Nat) ≠ 0 :=
  empty_result_caching.2.1 c7_empty_remote 1 c7_state0 [0] rfl rfl
